import Mathlib

/-!
# Fleet reporter: bounded event outbox with snapshot/ack protocol

Shallow embedding of `internal/pkg/reporter/fleet/reporter.go`.

* A Go `*event` stored in a `fleetapi.SerializableEvent` interface value is a
  record carrying its heap address `ptr` next to the struct fields.  Go's `==`
  on such interface values compares the address only, so the model compares
  `ptr` only.
* `time.Time` is an integer count of nanoseconds on one time line; the zero
  `time.Time` is `0`.  `Time.Sub` saturates like Go's does.
* Every method runs under `qlock`, so each call is one atomic state transition.
  The logger only writes log lines and is left out.
-/

namespace Fleet

/-! ## Data model -/

/-- Modelled from the spec: the constant `reporter.EventTypeError`, declared in
package `reporter`, which is not among the sources; the spec's scenarios write
the error kind as ERROR. -/
def EventTypeError : String := "ERROR"

/-- The argument of `Report`: what the accessor methods of a `reporter.Event`
return (`Type()`, `Time()`, `SubType()`, `Message()`, `Payload()`). -/
structure ReporterEvent where
  Typ : String
  Time : Int
  SubType : String
  Message : String
  Payload : List (String × String)
deriving Repr, DecidableEq

/-- The struct `event` together with the address `ptr` it was allocated at. -/
structure event where
  ptr : Nat
  AgentID : String
  EventType : String
  Ts : Int
  SubType : String
  Msg : String
  Payload : List (String × String)
deriving Repr, DecidableEq

/-- The nil interface value (address 0), which `make` fills a fresh slice with. -/
def nilEvent : event := ⟨0, "", "", 0, "", "", []⟩

instance : Inhabited event := ⟨nilEvent⟩

/-- Method `(e *event) Type()`. -/
def event.getType (e : event) : String := e.EventType

/-- Method `(e *event) Timestamp()`. -/
def event.Timestamp (e : event) : Int := e.Ts

/-- Method `(e *event) Message()`. -/
def event.Message (e : event) : String := e.Msg

/-- Go's `==` on two interface values holding `*event`: pointer identity. -/
def sameHandle (v w : event) : Bool := v.ptr == w.ptr

/-- Largest `time.Duration`. -/
def maxDuration : Int := 2 ^ 63 - 1

/-- Smallest `time.Duration`. -/
def minDuration : Int := -(2 ^ 63)

/-- Go's `t.Sub(u)`: the difference `t - u`, saturated to the `Duration` range. -/
def timeSub (t u : Int) : Int :=
  if t - u > maxDuration then maxDuration
  else if t - u < minDuration then minDuration
  else t - u

/-- The field of `config.Config` that `NewReporter` reads. -/
structure Config where
  Threshold : Int
deriving Repr, DecidableEq

/-- The struct `Reporter`: `info` is the string its `agentInfo` returns from
`AgentID()`; `logger` and `qlock` carry no state of the model. -/
structure Reporter where
  info : String
  queue : List event
  threshold : Int
  lastAck : Int
deriving Repr, DecidableEq

/-- Function `NewReporter`: empty queue, the configured threshold, zero `lastAck`. -/
def NewReporter (agentInfo : String) (c : Config) : Reporter × Option String :=
  ({ info := agentInfo, queue := [], threshold := c.Threshold, lastAck := 0 }, none)

/-! ## Loops -/

/-- A `for i, v := range queue` loop that leaves at the first `v` satisfying
`p`, yielding its index; `i` is the index of the head of the remaining slice. -/
def rangeFind (p : event → Bool) : List event → Nat → Option Nat
  | [], _ => none
  | v :: rest, i => if p v then some i else rangeFind p rest (i + 1)

/-- Go's builtin `copy(dst, src)`: overwrites the first `min(len dst, len src)`
elements of `dst`. -/
def copy (dst src : List event) : List event :=
  src.take (min dst.length src.length) ++ dst.drop (min dst.length src.length)

/-! ## Eviction -/

/-- Method `tryDropInfo`: removes the first event whose type is not the error
type and reports whether it found one. -/
def Reporter.tryDropInfo (r : Reporter) : Reporter × Bool :=
  match rangeFind (fun e => e.getType != EventTypeError) r.queue 0 with
  | some i => ({ r with queue := r.queue.take i ++ r.queue.drop (i + 1) }, true)
  | none => (r, false)

/-- Method `dropFirst`. -/
def Reporter.dropFirst (r : Reporter) : Reporter :=
  if r.queue.length = 0 then r
  else { r with queue := r.queue.drop 1 }

/-- Method `dropEvent`. -/
def Reporter.dropEvent (r : Reporter) : Reporter :=
  let (r1, dropped) := r.tryDropInfo
  if !dropped then r1.dropFirst else r1

/-! ## Producer path -/

/-- Method `Report`; `p` is the address of the freshly allocated `event`.
The second component is the returned error (`none` is nil). -/
def Reporter.Report (r : Reporter) (p : Nat) (e : ReporterEvent) : Reporter × Option String :=
  let r1 : Reporter :=
    { r with queue := r.queue ++ [⟨p, r.info, e.Typ, e.Time, e.SubType, e.Message, e.Payload⟩] }
  let r2 : Reporter :=
    if r1.threshold > 0 ∧ (r1.queue.length : Int) > r1.threshold then r1.dropEvent else r1
  (r2, none)

/-! ## Consumer path -/

/-- The `OUTER` loop of `clear`, entered with `idx + 1` equal to the argument:
walks `items` from `idx` down to 0 and yields `dropIdx`, which stays at its
zero value when no item is found in the queue. -/
def clearLoop (queue items : List event) : Nat → Nat
  | 0 => 0
  | idx + 1 =>
    match rangeFind (fun v => sameHandle v (items.getD idx default)) queue 0 with
    | some i => i
    | none => clearLoop queue items idx

/-- Method `clear`; `items = none` is the nil slice. -/
def Reporter.clear (r : Reporter) (items : Option (List event)) (ackTime : Int) : Reporter :=
  if timeSub ackTime r.lastAck ≤ 0 ∨ r.queue.length = 0 ∨
      items.isNone = true ∨ (items.getD []).length = 0 then r
  else
    let itemsLen := (items.getD []).length
    let dropIdx := clearLoop r.queue (items.getD []) itemsLen
    { r with lastAck := ackTime, queue := r.queue.drop (dropIdx + 1) }

/-- Method `Close`. -/
def Reporter.Close (r : Reporter) : Reporter × Option String := (r, none)

/-- Method `queueCopy`: `make` a slice of the queue's length, `copy` into it. -/
def Reporter.queueCopy (r : Reporter) : List event :=
  let size := r.queue.length
  let batch := List.replicate size nilEvent
  copy batch r.queue

/-- Method `Events`: the copy, the ack closure and the (untouched) reporter.
The closure captures `cp`; the arguments of the closure are the reading of
`time.Now()` at the moment it is invoked and the reporter state it then finds. -/
def Reporter.Events (r : Reporter) : List event × (Int → Reporter → Reporter) × Reporter :=
  let cp := r.queueCopy
  let ackFn : Int → Reporter → Reporter := fun now r1 => r1.clear (some cp) now
  (cp, ackFn, r)

/-! ## Histories -/

/-- One call made on the reporter by a producer or a consumer. `ack k now`
invokes the ack function handed out by the `k`-th `Events` call of the history,
with the clock then reading `now`. -/
inductive Op where
  | report (e : ReporterEvent)
  | events
  | ack (k : Nat) (now : Int)
  | close
deriving Repr, DecidableEq

/-- A reporter in its process: the next free heap address, what the `Events`
calls so far returned, and (for stating order properties) every event ever
appended, in arrival order. Addresses are handed out in increasing order and
never reused: an event stays reachable from every snapshot that holds it for as
long as that snapshot's ack function can still be invoked. -/
structure Sys where
  r : Reporter
  heap : Nat
  handed : List (List event × (Int → Reporter → Reporter))
  arrived : List event

/-- A process that has just constructed its reporter. -/
def Sys.init (agentInfo : String) (c : Config) : Sys :=
  { r := (NewReporter agentInfo c).1, heap := 1, handed := [], arrived := [] }

/-- Effect of one call. -/
def Sys.step (s : Sys) : Op → Sys
  | .report e =>
    { s with
      r := (s.r.Report s.heap e).1
      heap := s.heap + 1
      arrived := s.arrived ++ [⟨s.heap, s.r.info, e.Typ, e.Time, e.SubType, e.Message, e.Payload⟩] }
  | .events =>
    let res := s.r.Events
    { s with r := res.2.2, handed := s.handed ++ [(res.1, res.2.1)] }
  | .ack k now =>
    match s.handed[k]? with
    | some (_, ackFn) => { s with r := ackFn now s.r }
    | none => s
  | .close => { s with r := s.r.Close.1 }

/-- Effect of a sequence of calls, oldest first. -/
def Sys.run (s : Sys) (ops : List Op) : Sys := ops.foldl Sys.step s

/-- What holds of a process in every state it can reach: addresses handed out
so far lie below the next free one and grow along the arrival record, the
queue is what survives of that record, and every pair handed out by `Events`
is a snapshot in address order with the closure that clears it. -/
structure Sys.Inv (s : Sys) : Prop where
  below : ∀ e ∈ s.arrived, e.ptr < s.heap
  arrSorted : (s.arrived.map event.ptr).Pairwise (· < ·)
  sub : s.r.queue.Sublist s.arrived
  acks : ∀ p ∈ s.handed,
    p.2 = (fun now r1 => r1.clear (some p.1) now) ∧ (p.1.map event.ptr).Pairwise (· < ·)

/-! ## Concrete events and histories -/

/-- A reported event of a type other than the error type. -/
def evInfo : ReporterEvent := ⟨"INFO", 0, "", "", []⟩

/-- A reported event of the error type. -/
def evError : ReporterEvent := ⟨EventTypeError, 0, "", "", []⟩

/-- The event stored at address `p` when the agent `agent` reports `evInfo`
or `evError`. -/
def stored (p : Nat) (t : String) : event := ⟨p, "agent", t, 0, "", "", []⟩

/-- Threshold 2: `Report(e1:INFO)`, `Report(e2:ERROR)`, `Report(e3:INFO)`. -/
def evictHistory : List Op := [.report evInfo, .report evError, .report evInfo]

/-- One event, a snapshot of it, then a second event. -/
def raceHistory : List Op := [.report evInfo, .events, .report evInfo]

/-- Two snapshots, the older of one event and the newer of two, then a third
event. -/
def twoSnapshotHistory : List Op :=
  [.report evInfo, .events, .report evInfo, .events, .report evInfo]

/-- Two events, a snapshot of both, then a third event. -/
def drainHistory : List Op := [.report evInfo, .report evInfo, .events, .report evInfo]

/-- Three events with equal field values at three addresses. -/
def twinQueue : Reporter :=
  { info := "agent", queue := [stored 1 "INFO", stored 2 "INFO", stored 3 "INFO"],
    threshold := 0, lastAck := 0 }

/-- An error event followed by two others. -/
def mixedQueue : Reporter :=
  { info := "agent", queue := [stored 1 EventTypeError, stored 2 "INFO", stored 3 "INFO"],
    threshold := 2, lastAck := 0 }

/-- Two error events. -/
def errorQueue : Reporter :=
  { info := "agent", queue := [stored 1 EventTypeError, stored 2 EventTypeError],
    threshold := 1, lastAck := 0 }

/-- The ack closure as the spec words it, for comparison with the one `Events`
builds: it captures the copy `cp` and the wall-clock time `t0` of the snapshot,
and passes `t0` to `clear` whatever the clock reads when it is invoked. -/
def specAckFn (cp : List event) (t0 : Int) : Int → Reporter → Reporter :=
  fun _ r1 => r1.clear (some cp) t0

/-- The queue `[e2, e4]` of the race scenario, `e2` of the error type, with
threshold 2. -/
def raceQueue : Reporter :=
  { info := "agent", queue := [stored 2 EventTypeError, stored 4 "INFO"],
    threshold := 2, lastAck := 0 }

/-! ## Facts about the loops -/

theorem timeSub_nonpos_iff (t u : Int) : timeSub t u ≤ 0 ↔ t ≤ u := by
  unfold timeSub maxDuration minDuration
  split_ifs <;> constructor <;> intro h <;> omega

theorem rangeFind_append (p : event → Bool) (pre post : List event) (x : event) (k : Nat)
    (hpre : ∀ e ∈ pre, p e = false) (hx : p x = true) :
    rangeFind p (pre ++ x :: post) k = some (k + pre.length) := by
  induction pre generalizing k with
  | nil => simp [rangeFind, hx]
  | cons a pre ih =>
    have ha : p a = false := hpre a (List.mem_cons_self a pre)
    have hrest : ∀ e ∈ pre, p e = false := fun e he => hpre e (List.mem_cons_of_mem a he)
    have hstep : rangeFind p (a :: pre ++ x :: post) k = rangeFind p (pre ++ x :: post) (k + 1) := by
      show rangeFind p (a :: (pre ++ x :: post)) k = _
      simp [rangeFind, ha]
    rw [hstep, ih (k + 1) hrest, List.length_cons]
    congr 1
    omega

theorem rangeFind_none (p : event → Bool) (q : List event) (k : Nat)
    (h : ∀ e ∈ q, p e = false) : rangeFind p q k = none := by
  induction q generalizing k with
  | nil => rfl
  | cons a q ih =>
    have ha : p a = false := h a (List.mem_cons_self a q)
    simp only [rangeFind, ha, Bool.false_eq_true, if_false]
    exact ih (k + 1) (fun e he => h e (List.mem_cons_of_mem a he))

theorem rangeFind_split (p : event → Bool) (q : List event) (k : Nat) :
    (rangeFind p q k = none ∧ ∀ e ∈ q, p e = false) ∨
    (∃ pre x post, q = pre ++ x :: post ∧ (∀ e ∈ pre, p e = false) ∧ p x = true ∧
      rangeFind p q k = some (k + pre.length)) := by
  induction q generalizing k with
  | nil => left; exact ⟨rfl, fun e he => absurd he (List.not_mem_nil e)⟩
  | cons a q ih =>
    by_cases ha : p a = true
    · right
      refine ⟨[], a, q, rfl, fun e he => absurd he (List.not_mem_nil e), ha, ?_⟩
      simp [rangeFind, ha]
    · have ha' : p a = false := by simpa using ha
      rcases ih (k + 1) with ⟨hn, hall⟩ | ⟨pre, x, post, hq, hpre, hx, hs⟩
      · left
        refine ⟨by simp [rangeFind, ha', hn], ?_⟩
        intro e he
        rcases List.mem_cons.mp he with rfl | he
        · exact ha'
        · exact hall e he
      · right
        refine ⟨a :: pre, x, post, by simp [hq], ?_, hx, ?_⟩
        · intro e he
          rcases List.mem_cons.mp he with rfl | he
          · exact ha'
          · exact hpre e he
        · simp only [rangeFind, ha', Bool.false_eq_true, if_false, hs, List.length_cons]
          congr 1
          omega

theorem take_drop_succ_split (pre post : List event) (x : event) :
    (pre ++ x :: post).take pre.length ++ (pre ++ x :: post).drop (pre.length + 1) = pre ++ post := by
  simp [List.take_append_eq_append_take, List.drop_append_eq_append_drop]

theorem drop_succ_split (pre post : List event) (x : event) :
    (pre ++ x :: post).drop (pre.length + 1) = post := by
  simp [List.drop_append_eq_append_drop]

theorem copy_replicate (q : List event) (d : event) :
    copy (List.replicate q.length d) q = q := by
  simp [copy]

theorem queueCopy_eq (r : Reporter) : r.queueCopy = r.queue := by
  simp [Reporter.queueCopy, copy_replicate]

/-! ## Facts about eviction -/

theorem tryDropInfo_split (r : Reporter) (pre post : List event) (x : event)
    (hq : r.queue = pre ++ x :: post)
    (hpre : ∀ e ∈ pre, e.getType = EventTypeError) (hx : x.getType ≠ EventTypeError) :
    r.tryDropInfo = ({ r with queue := pre ++ post }, true) := by
  have h1 : ∀ e ∈ pre, (fun e : event => e.getType != EventTypeError) e = false := by
    intro e he
    simp [hpre e he]
  have h2 : (fun e : event => e.getType != EventTypeError) x = true := by
    simpa using hx
  unfold Reporter.tryDropInfo
  rw [hq, rangeFind_append _ pre post x 0 h1 h2]
  simp only [Nat.zero_add, take_drop_succ_split]

theorem tryDropInfo_all_error (r : Reporter)
    (hall : ∀ e ∈ r.queue, e.getType = EventTypeError) :
    r.tryDropInfo = (r, false) := by
  have h1 : ∀ e ∈ r.queue, (fun e : event => e.getType != EventTypeError) e = false := by
    intro e he
    simp [hall e he]
  unfold Reporter.tryDropInfo
  rw [rangeFind_none _ r.queue 0 h1]

theorem dropEvent_split (r : Reporter) (pre post : List event) (x : event)
    (hq : r.queue = pre ++ x :: post)
    (hpre : ∀ e ∈ pre, e.getType = EventTypeError) (hx : x.getType ≠ EventTypeError) :
    r.dropEvent = { r with queue := pre ++ post } := by
  unfold Reporter.dropEvent
  rw [tryDropInfo_split r pre post x hq hpre hx]
  rfl

theorem dropEvent_all_error (r : Reporter)
    (hall : ∀ e ∈ r.queue, e.getType = EventTypeError) :
    r.dropEvent = { r with queue := r.queue.tail } := by
  unfold Reporter.dropEvent
  rw [tryDropInfo_all_error r hall]
  simp only [Bool.not_false, if_true, Reporter.dropFirst]
  cases hq : r.queue with
  | nil => cases r; simp_all
  | cons a q => simp

/-- Every queue either holds only error events or splits at its oldest
non-error event. -/
theorem queue_cases (q : List event) :
    (∀ e ∈ q, e.getType = EventTypeError) ∨
    (∃ pre x post, q = pre ++ x :: post ∧ (∀ e ∈ pre, e.getType = EventTypeError) ∧
      x.getType ≠ EventTypeError) := by
  rcases rangeFind_split (fun e : event => e.getType != EventTypeError) q 0 with
    ⟨_, hall⟩ | ⟨pre, x, post, hq, hpre, hx, _⟩
  · left
    intro e he
    simpa using hall e he
  · right
    refine ⟨pre, x, post, hq, ?_, by simpa using hx⟩
    intro e he
    simpa using hpre e he

/-! ## Facts about the ack trim -/

theorem clear_applied (r : Reporter) (items : List event) (ackTime : Int)
    (ht : r.lastAck < ackTime) (hq : r.queue ≠ []) (hi : items ≠ []) :
    r.clear (some items) ackTime =
      { r with lastAck := ackTime
               queue := r.queue.drop (clearLoop r.queue items items.length + 1) } := by
  have h1 : ¬ timeSub ackTime r.lastAck ≤ 0 := by
    rw [timeSub_nonpos_iff]; omega
  have h2 : ¬ r.queue.length = 0 := by
    intro h; exact hq (List.length_eq_zero.mp h)
  have h3 : ¬ items.length = 0 := by
    intro h; exact hi (List.length_eq_zero.mp h)
  simp [Reporter.clear, h1, h2, h3]

theorem clear_cases (r : Reporter) (items : Option (List event)) (ackTime : Int) :
    r.clear items ackTime = r ∨
    ∃ n, r.clear items ackTime = { r with lastAck := ackTime, queue := r.queue.drop (n + 1) } := by
  unfold Reporter.clear
  split_ifs
  · left; trivial
  · right; exact ⟨_, rfl⟩

theorem clear_suffix (r : Reporter) (items : Option (List event)) (ackTime : Int) :
    (r.clear items ackTime).queue <:+ r.queue := by
  rcases clear_cases r items ackTime with h | ⟨n, h⟩
  · rw [h]
  · rw [h]; exact List.drop_suffix _ _

theorem clear_threshold (r : Reporter) (items : Option (List event)) (ackTime : Int) :
    (r.clear items ackTime).threshold = r.threshold := by
  rcases clear_cases r items ackTime with h | ⟨n, h⟩ <;> rw [h]

theorem clear_info (r : Reporter) (items : Option (List event)) (ackTime : Int) :
    (r.clear items ackTime).info = r.info := by
  rcases clear_cases r items ackTime with h | ⟨n, h⟩ <;> rw [h]

theorem getD_length_pred_eq_getLast (items : List event) (hne : items ≠ []) :
    items.getD (items.length - 1) default = items.getLast hne := by
  rw [List.getLast_eq_getElem, List.getD_eq_getElem?_getD,
    List.getElem?_eq_getElem (by have := List.length_pos.mpr hne; omega)]
  rfl

theorem clearLoop_found (queue items : List event) (n i : Nat)
    (h : rangeFind (fun v => sameHandle v (items.getD n default)) queue 0 = some i) :
    clearLoop queue items (n + 1) = i := by
  rw [clearLoop, h]

theorem clearLoop_missed (queue items : List event) (n : Nat)
    (h : rangeFind (fun v => sameHandle v (items.getD n default)) queue 0 = none) :
    clearLoop queue items (n + 1) = clearLoop queue items n := by
  rw [clearLoop, h]

theorem rangeFind_handle_at (queue : List event) (x : event) (i : Nat) (hi : i < queue.length)
    (hnd : (queue.map event.ptr).Nodup) (hm : (queue[i]).ptr = x.ptr) :
    rangeFind (fun v => sameHandle v x) queue 0 = some i := by
  have hsplit : queue = queue.take i ++ queue[i] :: queue.drop (i + 1) := by
    rw [← List.drop_eq_getElem_cons hi, List.take_append_drop]
  have hlen : (queue.take i).length = i := by
    rw [List.length_take]; omega
  have hpre : ∀ e ∈ queue.take i, (fun v => sameHandle v x) e = false := by
    intro e he
    rw [hsplit, List.map_append, List.map_cons] at hnd
    have hdis := (List.nodup_append.mp hnd).2.2
    have he1 : e.ptr ∈ (queue.take i).map event.ptr := List.mem_map_of_mem _ he
    have hne : e.ptr ≠ (queue[i]).ptr := by
      intro heq
      exact hdis he1 (by rw [heq]; exact List.mem_cons_self _ _)
    simp only [sameHandle, beq_eq_false_iff_ne, ne_eq]
    rw [← hm]
    exact hne
  have hx : (fun v => sameHandle v x) queue[i] = true := by
    simp [sameHandle, hm]
  have := rangeFind_append (fun v => sameHandle v x) (queue.take i) (queue.drop (i + 1))
    queue[i] 0 hpre hx
  rw [← hsplit, hlen, Nat.zero_add] at this
  exact this

/-! ## Facts about `Report` -/

theorem dropEvent_sublist (r : Reporter) : r.dropEvent.queue.Sublist r.queue := by
  rcases queue_cases r.queue with hall | ⟨pre, x, post, hq, hpre, hx⟩
  · rw [dropEvent_all_error r hall]
    exact List.tail_sublist _
  · rw [dropEvent_split r pre post x hq hpre hx, hq]
    exact List.Sublist.append (List.Sublist.refl pre) (List.sublist_cons_self x post)

theorem dropEvent_length (r : Reporter) (hq : r.queue ≠ []) :
    r.dropEvent.queue.length + 1 = r.queue.length := by
  rcases queue_cases r.queue with hall | ⟨pre, x, post, hq', hpre, hx⟩
  · rw [dropEvent_all_error r hall]
    have := List.length_pos.mpr hq
    simp only [List.length_tail]
    omega
  · rw [dropEvent_split r pre post x hq' hpre hx, hq']
    simp only [List.length_append, List.length_cons]
    omega

theorem dropEvent_fields (r : Reporter) :
    r.dropEvent.threshold = r.threshold ∧ r.dropEvent.lastAck = r.lastAck ∧
      r.dropEvent.info = r.info := by
  rcases queue_cases r.queue with hall | ⟨pre, x, post, hq, hpre, hx⟩
  · rw [dropEvent_all_error r hall]
    exact ⟨rfl, rfl, rfl⟩
  · rw [dropEvent_split r pre post x hq hpre hx]
    exact ⟨rfl, rfl, rfl⟩

theorem Report_cases (r : Reporter) (p : Nat) (e : ReporterEvent) :
    ((r.Report p e).1 =
        { r with queue := r.queue ++ [⟨p, r.info, e.Typ, e.Time, e.SubType, e.Message, e.Payload⟩] } ∧
      ¬ (r.threshold > 0 ∧ ((r.queue.length + 1 : Nat) : Int) > r.threshold)) ∨
    ((r.Report p e).1 =
        Reporter.dropEvent
          { r with queue := r.queue ++ [⟨p, r.info, e.Typ, e.Time, e.SubType, e.Message, e.Payload⟩] } ∧
      (r.threshold > 0 ∧ ((r.queue.length + 1 : Nat) : Int) > r.threshold)) := by
  by_cases h : r.threshold > 0 ∧ ((r.queue.length + 1 : Nat) : Int) > r.threshold
  · right
    refine ⟨?_, h⟩
    simp only [Reporter.Report, List.length_append, List.length_singleton]
    rw [if_pos h]
  · left
    refine ⟨?_, h⟩
    simp only [Reporter.Report, List.length_append, List.length_singleton]
    rw [if_neg h]

theorem Report_sublist (r : Reporter) (p : Nat) (e : ReporterEvent) :
    (r.Report p e).1.queue.Sublist
      (r.queue ++ [⟨p, r.info, e.Typ, e.Time, e.SubType, e.Message, e.Payload⟩]) := by
  rcases Report_cases r p e with ⟨h, _⟩ | ⟨h, _⟩
  · rw [h]
  · rw [h]
    exact dropEvent_sublist _

theorem Report_fields (r : Reporter) (p : Nat) (e : ReporterEvent) :
    (r.Report p e).1.threshold = r.threshold ∧ (r.Report p e).1.lastAck = r.lastAck ∧
      (r.Report p e).1.info = r.info := by
  rcases Report_cases r p e with ⟨h, _⟩ | ⟨h, _⟩
  · rw [h]
    exact ⟨rfl, rfl, rfl⟩
  · rw [h]
    exact dropEvent_fields _

theorem Report_length_le (r : Reporter) (p : Nat) (e : ReporterEvent) (T : Int)
    (hT : 0 < T) (hthr : r.threshold = T) (hlen : (r.queue.length : Int) ≤ T) :
    ((r.Report p e).1.queue.length : Int) ≤ T := by
  rcases Report_cases r p e with ⟨h, hc⟩ | ⟨h, _⟩
  · rw [h]
    simp only [List.length_append, List.length_singleton]
    rw [hthr] at hc
    push_cast at hc ⊢
    by_contra hgt
    exact hc ⟨hT, by omega⟩
  · rw [h]
    have hne : ({ r with queue := r.queue ++
        [⟨p, r.info, e.Typ, e.Time, e.SubType, e.Message, e.Payload⟩] } : Reporter).queue ≠ [] := by
      simp
    have := dropEvent_length _ hne
    simp only [List.length_append, List.length_singleton] at this
    omega

/-! ## Reachable states -/

theorem Sys.run_nil (s : Sys) : s.run [] = s := rfl

theorem Sys.run_cons (s : Sys) (op : Op) (ops : List Op) :
    s.run (op :: ops) = (s.step op).run ops := rfl

theorem Sys.Inv.queueSorted {s : Sys} (h : s.Inv) :
    (s.r.queue.map event.ptr).Pairwise (· < ·) :=
  List.Pairwise.sublist (h.sub.map event.ptr) h.arrSorted

theorem Sys.init_inv (agentInfo : String) (c : Config) : (Sys.init agentInfo c).Inv := by
  refine ⟨?_, ?_, ?_, ?_⟩
  · intro e he; simp [Sys.init] at he
  · simp [Sys.init]
  · simp [Sys.init, NewReporter]
  · intro p hp; simp [Sys.init] at hp

theorem Sys.step_ack_eq (s : Sys) (h : s.Inv) (k : Nat) (now : Int) :
    (s.step (.ack k now) = s) ∨
    (∃ S, (s.handed[k]?).map Prod.fst = some S ∧
      (S.map event.ptr).Pairwise (· < ·) ∧
      s.step (.ack k now) = { s with r := s.r.clear (some S) now }) := by
  cases hk : s.handed[k]? with
  | none => left; simp only [Sys.step, hk]
  | some p =>
    right
    have hmem : p ∈ s.handed := List.getElem?_mem hk
    obtain ⟨hf, hs⟩ := h.acks p hmem
    refine ⟨p.1, ?_, hs, ?_⟩
    · simp
    · obtain ⟨S, f⟩ := p
      simp only at hf
      simp only [Sys.step, hk, hf]

theorem Sys.step_inv (s : Sys) (h : s.Inv) (op : Op) : (s.step op).Inv := by
  cases op with
  | report e =>
    refine ⟨?_, ?_, ?_, ?_⟩
    · intro x hx
      simp only [Sys.step, List.mem_append, List.mem_singleton] at hx
      rcases hx with hx | rfl
      · have := h.below x hx
        show x.ptr < s.heap + 1
        omega
      · show s.heap < s.heap + 1
        omega
    · show ((s.arrived ++ [_]).map event.ptr).Pairwise (· < ·)
      rw [List.map_append, List.pairwise_append]
      refine ⟨h.arrSorted, by simp, ?_⟩
      intro a ha b hb
      obtain ⟨x, hx, rfl⟩ := List.mem_map.mp ha
      simp only [List.map_cons, List.map_nil, List.mem_singleton] at hb
      rw [hb]
      exact h.below x hx
    · show (s.r.Report s.heap e).1.queue.Sublist (s.arrived ++ [_])
      exact (Report_sublist s.r s.heap e).trans
        (List.Sublist.append h.sub (List.Sublist.refl _))
    · exact h.acks
  | events =>
    refine ⟨h.below, h.arrSorted, h.sub, ?_⟩
    intro p hp
    simp only [Sys.step, List.mem_append, List.mem_singleton] at hp
    rcases hp with hp | rfl
    · exact h.acks p hp
    · refine ⟨rfl, ?_⟩
      show (s.r.queueCopy.map event.ptr).Pairwise (· < ·)
      rw [queueCopy_eq]
      exact h.queueSorted
  | ack k now =>
    rcases Sys.step_ack_eq s h k now with heq | ⟨S, _, _, heq⟩
    · rw [heq]; exact h
    · rw [heq]
      exact ⟨h.below, h.arrSorted, (clear_suffix s.r (some S) now).sublist.trans h.sub, h.acks⟩
  | close => exact h

theorem Sys.run_inv_of (s : Sys) (h : s.Inv) (ops : List Op) : (s.run ops).Inv := by
  induction ops generalizing s with
  | nil => exact h
  | cons op ops ih => exact ih (s.step op) (Sys.step_inv s h op)

theorem Sys.run_inv (agentInfo : String) (c : Config) (ops : List Op) :
    ((Sys.init agentInfo c).run ops).Inv :=
  Sys.run_inv_of _ (Sys.init_inv agentInfo c) ops

theorem Sys.step_threshold (s : Sys) (h : s.Inv) (op : Op) :
    (s.step op).r.threshold = s.r.threshold := by
  cases op with
  | report e => exact (Report_fields s.r s.heap e).1
  | events => rfl
  | ack k now =>
    rcases Sys.step_ack_eq s h k now with heq | ⟨S, _, _, heq⟩
    · rw [heq]
    · rw [heq]; exact clear_threshold _ _ _
  | close => rfl

theorem Sys.step_length_le (s : Sys) (h : s.Inv) (op : Op) (T : Int) (hT : 0 < T)
    (hthr : s.r.threshold = T) (hlen : (s.r.queue.length : Int) ≤ T) :
    ((s.step op).r.queue.length : Int) ≤ T := by
  cases op with
  | report e => exact Report_length_le s.r s.heap e T hT hthr hlen
  | events => exact hlen
  | ack k now =>
    rcases Sys.step_ack_eq s h k now with heq | ⟨S, _, _, heq⟩
    · rw [heq]; exact hlen
    · rw [heq]
      have := (clear_suffix s.r (some S) now).length_le
      show ((s.r.clear (some S) now).queue.length : Int) ≤ T
      omega
  | close => exact hlen

theorem Sys.run_length_le (s : Sys) (h : s.Inv) (ops : List Op) (T : Int) (hT : 0 < T)
    (hthr : s.r.threshold = T) (hlen : (s.r.queue.length : Int) ≤ T) :
    ((s.run ops).r.queue.length : Int) ≤ T := by
  induction ops generalizing s with
  | nil => exact hlen
  | cons op ops ih =>
    exact ih (s.step op) (Sys.step_inv s h op)
      ((Sys.step_threshold s h op).trans hthr) (Sys.step_length_le s h op T hT hthr hlen)

theorem clearLoop_no_survivor (queue items : List event) (n : Nat) (hn : n ≤ items.length)
    (hq : (queue.map event.ptr).Pairwise (· < ·))
    (hi : (items.map event.ptr).Pairwise (· < ·)) :
    ∀ e ∈ items.take n, ∀ v ∈ queue.drop (clearLoop queue items n + 1), v.ptr ≠ e.ptr := by
  induction n with
  | zero => intro e he; simp at he
  | succ n ih =>
    have hlt : n < items.length := hn
    have hx : items.getD n default = items[n] := by
      rw [List.getD_eq_getElem?_getD, List.getElem?_eq_getElem hlt]; rfl
    have hsplit : items = items.take n ++ items[n] :: items.drop (n + 1) := by
      rw [← List.drop_eq_getElem_cons hlt, List.take_append_drop]
    have hbefore : ∀ e ∈ items.take n, e.ptr < (items[n]).ptr := by
      intro e he
      rw [hsplit, List.map_append, List.pairwise_append] at hi
      exact hi.2.2 _ (List.mem_map_of_mem _ he) _
        (List.mem_map_of_mem _ (List.mem_cons_self _ _))
    have hle : ∀ e ∈ items.take (n + 1), e.ptr ≤ (items[n]).ptr := by
      intro e he
      rw [List.take_succ, List.getElem?_eq_getElem hlt] at he
      simp only [Option.toList_some, List.mem_append, List.mem_singleton] at he
      rcases he with he | rfl
      · exact le_of_lt (hbefore e he)
      · exact le_refl _
    rcases rangeFind_split (fun v => sameHandle v (items.getD n default)) queue 0 with
      ⟨hnone, hall⟩ | ⟨pre, y, post, hqs, _, hy, hsome⟩
    · rw [clearLoop_missed queue items n hnone]
      intro e he v hv
      rw [List.take_succ, List.getElem?_eq_getElem hlt] at he
      simp only [Option.toList_some, List.mem_append, List.mem_singleton] at he
      rcases he with he | rfl
      · exact ih (Nat.le_of_lt hlt) e he v hv
      · have := hall v (List.mem_of_mem_drop hv)
        rw [hx] at this
        simpa [sameHandle] using this
    · rw [Nat.zero_add] at hsome
      rw [clearLoop_found queue items n pre.length hsome, hqs, drop_succ_split]
      intro e he v hv
      have hyx : y.ptr = (items[n]).ptr := by
        rw [hx] at hy
        simpa [sameHandle] using hy
      have hyv : y.ptr < v.ptr := by
        rw [hqs, List.map_append, List.pairwise_append] at hq
        have := List.rel_of_pairwise_cons hq.2.1 (List.mem_map_of_mem event.ptr hv)
        exact this
      have := hle e he
      omega

/-! ## The claims -/

/-- C1 (evaluation at the failing history): with threshold 1, one event is
reported and snapshotted (snapshot = the event at address 1), a second report
evicts it and leaves only the event at address 2 in the queue; the ack of the
snapshot then empties the queue, removing an event that is not in the
snapshot. -/
theorem ack_removes_event_outside_snapshot :
    ((Sys.init "agent" ⟨1⟩).run raceHistory).handed.map (fun p => p.1) = [[stored 1 "INFO"]] ∧
    ((Sys.init "agent" ⟨1⟩).run raceHistory).r.queue = [stored 2 "INFO"] ∧
    (((Sys.init "agent" ⟨1⟩).run raceHistory).step (.ack 0 5)).r.queue = [] := by
  decide

/-- C2: on a queue with pairwise distinct handles, an ack later than the
watermark whose snapshot's last element has the handle of the queue element at
index `i` leaves exactly the elements after index `i` and sets `lastAck` to the
ack time; only the handles are compared, never the field values. -/
theorem clear_trims_through_last_item (r : Reporter) (items : List event) (i : Nat)
    (ackTime : Int) (hnd : (r.queue.map event.ptr).Nodup) (hne : items ≠ [])
    (hi : i < r.queue.length) (hm : (r.queue[i]).ptr = (items.getLast hne).ptr)
    (ht : r.lastAck < ackTime) :
    (r.clear (some items) ackTime).queue = r.queue.drop (i + 1) ∧
      (r.clear (some items) ackTime).lastAck = ackTime := by
  have hq : r.queue ≠ [] := by
    intro h; rw [h] at hi; exact Nat.not_lt_zero _ hi
  have hpos := List.length_pos.mpr hne
  have hlen : items.length = (items.length - 1) + 1 := by omega
  have hfind := rangeFind_handle_at r.queue (items.getD (items.length - 1) default) i hi hnd
    (by rw [getD_length_pred_eq_getLast items hne]; exact hm)
  have hloop : clearLoop r.queue items items.length = i := by
    rw [hlen]
    exact clearLoop_found r.queue items (items.length - 1) i hfind
  rw [clear_applied r items ackTime ht hq hne, hloop]
  exact ⟨rfl, rfl⟩

theorem clear_trims_through_last_item_witness :
    (twinQueue.clear (some [stored 1 "INFO", stored 2 "INFO"]) 5).queue = [stored 3 "INFO"] ∧
      (twinQueue.clear (some [stored 1 "INFO", stored 2 "INFO"]) 5).lastAck = 5 :=
  clear_trims_through_last_item twinQueue [stored 1 "INFO", stored 2 "INFO"] 1 5
    (by decide) (by decide) (by decide) (by decide) (by decide)

/-- C3: with a threshold `T > 0`, after any history of `Report`, `Events`, ack
and `Close` calls on a freshly constructed reporter the queue holds at most `T`
events (hence at most `T + 1`). -/
theorem queue_length_le_threshold (agentInfo : String) (T : Int) (hT : 0 < T)
    (ops : List Op) :
    (((Sys.init agentInfo ⟨T⟩).run ops).r.queue.length : Int) ≤ T ∧
      (((Sys.init agentInfo ⟨T⟩).run ops).r.queue.length : Int) ≤ T + 1 := by
  have h := Sys.run_length_le (Sys.init agentInfo ⟨T⟩) (Sys.init_inv agentInfo ⟨T⟩) ops T hT rfl
    (by simp only [Sys.init, NewReporter, List.length_nil]; exact le_of_lt hT)
  exact ⟨h, by omega⟩

theorem queue_length_le_threshold_witness :
    (0 : Int) < 2 ∧
      ((((Sys.init "agent" ⟨2⟩).run (evictHistory ++ [.report evInfo])).r.queue.length : Int) ≤ 2 ∧
      (((Sys.init "agent" ⟨2⟩).run (evictHistory ++ [.report evInfo])).r.queue.length : Int)
        ≤ 2 + 1) := by
  have h := queue_length_le_threshold "agent" 2 (by decide) (evictHistory ++ [.report evInfo])
  exact ⟨by decide, h⟩

/-- C4: a queue holding some non-error event splits at its oldest non-error
event `x` (only error events before it), and `dropEvent` removes `x` and nothing
else; with threshold 2, reporting INFO, ERROR, INFO leaves the second and third
event, and one more INFO report leaves the second and fourth. -/
theorem dropEvent_removes_oldest_non_error (r : Reporter)
    (h : ∃ e ∈ r.queue, e.getType ≠ EventTypeError) :
    (∃ pre x post, r.queue = pre ++ x :: post ∧
        (∀ e ∈ pre, e.getType = EventTypeError) ∧ x.getType ≠ EventTypeError ∧
        r.dropEvent = { r with queue := pre ++ post }) ∧
      ((Sys.init "agent" ⟨2⟩).run evictHistory).r.queue =
        [stored 2 EventTypeError, stored 3 "INFO"] ∧
      ((Sys.init "agent" ⟨2⟩).run (evictHistory ++ [.report evInfo])).r.queue =
        [stored 2 EventTypeError, stored 4 "INFO"] := by
  refine ⟨?_, by decide, by decide⟩
  rcases queue_cases r.queue with hall | ⟨pre, x, post, hq, hpre, hx⟩
  · obtain ⟨e, he, hne⟩ := h
    exact absurd (hall e he) hne
  · exact ⟨pre, x, post, hq, hpre, hx, dropEvent_split r pre post x hq hpre hx⟩

theorem dropEvent_removes_oldest_non_error_witness :
    (∃ pre x post, mixedQueue.queue = pre ++ x :: post ∧
        (∀ e ∈ pre, e.getType = EventTypeError) ∧ x.getType ≠ EventTypeError ∧
        mixedQueue.dropEvent = { mixedQueue with queue := pre ++ post }) ∧
      ((Sys.init "agent" ⟨2⟩).run evictHistory).r.queue =
        [stored 2 EventTypeError, stored 3 "INFO"] ∧
      ((Sys.init "agent" ⟨2⟩).run (evictHistory ++ [.report evInfo])).r.queue =
        [stored 2 EventTypeError, stored 4 "INFO"] :=
  dropEvent_removes_oldest_non_error mixedQueue ⟨stored 2 "INFO", by decide, by decide⟩

/-- C5: on a non-empty queue of error events only, `dropEvent` removes the
oldest event and keeps the rest as it is: the queue becomes its tail. -/
theorem dropEvent_all_error_drops_first (r : Reporter) (hne : r.queue ≠ [])
    (hall : ∀ e ∈ r.queue, e.getType = EventTypeError) :
    r.dropEvent = { r with queue := r.queue.tail } ∧
      r.dropEvent.queue.length + 1 = r.queue.length := by
  refine ⟨dropEvent_all_error r hall, dropEvent_length r hne⟩

theorem dropEvent_all_error_drops_first_witness :
    errorQueue.dropEvent = { errorQueue with queue := [stored 2 EventTypeError] } ∧
      errorQueue.dropEvent.queue.length + 1 = 2 :=
  dropEvent_all_error_drops_first errorQueue (by decide) (by decide)

/-- C6 (evaluation at the failing history): an event is reported and
snapshotted, a second event is reported; one invocation of the ack leaves the
second event in the queue, a second invocation of the same ack at a later clock
reading removes it. -/
theorem ack_twice_differs_from_once :
    ((Sys.init "agent" ⟨0⟩).run (raceHistory ++ [.ack 0 5])).r.queue = [stored 2 "INFO"] ∧
    ((Sys.init "agent" ⟨0⟩).run (raceHistory ++ [.ack 0 5, .ack 0 6])).r.queue = [] := by
  decide

/-- C7 (evaluation at the failing history): after two snapshots and a third
report, invoking only the newer ack leaves the third event; invoking the older
ack after it removes that event too. -/
theorem stale_ack_after_newer_discards :
    ((Sys.init "agent" ⟨0⟩).run twoSnapshotHistory).handed.map (fun p => p.1) =
      [[stored 1 "INFO"], [stored 1 "INFO", stored 2 "INFO"]] ∧
    ((Sys.init "agent" ⟨0⟩).run (twoSnapshotHistory ++ [.ack 1 5])).r.queue =
      [stored 3 "INFO"] ∧
    ((Sys.init "agent" ⟨0⟩).run (twoSnapshotHistory ++ [.ack 1 5, .ack 0 6])).r.queue = [] := by
  decide

/-- C8: in a state reached from a freshly constructed reporter, an ack of the
`k`-th snapshot `S` that is applied (clock reading after the watermark, queue
and `S` non-empty) leaves no event of `S` in the queue. -/
theorem applied_ack_clears_snapshot (agentInfo : String) (c : Config) (ops : List Op)
    (k : Nat) (now : Int) (S : List event) (s : Sys)
    (hs : s = (Sys.init agentInfo c).run ops)
    (hk : (s.handed[k]?).map Prod.fst = some S)
    (ht : s.r.lastAck < now) (hq : s.r.queue ≠ []) (hS : S ≠ []) :
    ∀ e ∈ S, ∀ v ∈ (s.step (.ack k now)).r.queue, v.ptr ≠ e.ptr := by
  have hinv : s.Inv := by rw [hs]; exact Sys.run_inv agentInfo c ops
  rcases Sys.step_ack_eq s hinv k now with heq | ⟨S1, hk1, hsorted, heq⟩
  · exfalso
    cases hget : s.handed[k]? with
    | none => rw [hget] at hk; simp at hk
    | some p =>
      obtain ⟨cp, f⟩ := p
      simp only [Sys.step, hget] at heq
      have hf := (hinv.acks (cp, f) (List.getElem?_mem hget)).1
      simp only at hf
      rw [hget] at hk
      simp only [Option.map_some', Option.some.injEq] at hk
      subst hf
      subst hk
      have hr := congrArg (fun t : Sys => t.r.lastAck) heq
      simp only at hr
      rw [clear_applied s.r cp now ht hq hS] at hr
      simp only at hr
      omega
  · rw [hk] at hk1
    cases Option.some.inj hk1
    rw [heq]
    show ∀ e ∈ S, ∀ v ∈ (s.r.clear (some S) now).queue, v.ptr ≠ e.ptr
    rw [clear_applied s.r S now ht hq hS]
    intro e he v hv
    have := clearLoop_no_survivor s.r.queue S S.length (le_refl _) hinv.queueSorted hsorted
    rw [List.take_length] at this
    exact this e he v hv

theorem applied_ack_clears_snapshot_witness :
    ((Sys.init "agent" ⟨0⟩).run drainHistory).r.lastAck < 5 ∧
      ((Sys.init "agent" ⟨0⟩).run drainHistory).r.queue ≠ [] ∧
      ∀ e ∈ [stored 1 "INFO", stored 2 "INFO"],
        ∀ v ∈ (((Sys.init "agent" ⟨0⟩).run drainHistory).step (.ack 0 5)).r.queue,
          v.ptr ≠ e.ptr :=
  ⟨by decide, by decide,
    applied_ack_clears_snapshot "agent" ⟨0⟩ drainHistory 0 5
      [stored 1 "INFO", stored 2 "INFO"] ((Sys.init "agent" ⟨0⟩).run drainHistory) rfl
      (by decide) (by decide) (by decide) (by decide)⟩

/-- C9: `Events` returns the queue itself, element by element and in order, and
leaves the reporter (queue, `lastAck` and all) as it was; the ack function it
returns is the closure that clears the returned copy. -/
theorem Events_returns_queue_unchanged (r : Reporter) :
    r.Events.1 = r.queue ∧ r.Events.2.2 = r ∧
      r.Events.2.2.queue = r.queue ∧ r.Events.2.2.lastAck = r.lastAck ∧
      r.Events.2.1 = (fun (now : Int) (r1 : Reporter) => r1.clear (some r.queue) now) := by
  refine ⟨queueCopy_eq r, rfl, rfl, rfl, ?_⟩
  show (fun (now : Int) (r1 : Reporter) => r1.clear (some r.queueCopy) now) = _
  rw [queueCopy_eq]

/-- C10: the queue after `dropEvent` is a sublist of the queue before it, the
queue after `clear` is a suffix of the queue before it, and after any history
the queue is a sublist of the record of arrivals, whose addresses are strictly
increasing. -/
theorem eviction_and_trim_preserve_order :
    (∀ r : Reporter, r.dropEvent.queue.Sublist r.queue) ∧
    (∀ (r : Reporter) (items : Option (List event)) (ackTime : Int),
      (r.clear items ackTime).queue <:+ r.queue) ∧
    (∀ (agentInfo : String) (c : Config) (ops : List Op),
      ((Sys.init agentInfo c).run ops).r.queue.Sublist ((Sys.init agentInfo c).run ops).arrived ∧
      (((Sys.init agentInfo c).run ops).arrived.map event.ptr).Pairwise (· < ·)) :=
  ⟨dropEvent_sublist, clear_suffix,
    fun agentInfo c ops => ⟨(Sys.run_inv agentInfo c ops).sub, (Sys.run_inv agentInfo c ops).arrSorted⟩⟩

/-! ## Further facts about the ack trim -/

theorem getD_eq_getElem_of_lt (items : List event) (k : Nat) (hk : k < items.length) :
    items.getD k default = items[k] := by
  rw [List.getD_eq_getElem?_getD, List.getElem?_eq_getElem hk]
  rfl

theorem clearLoop_all_missed (queue items : List event) (n : Nat)
    (h : ∀ e ∈ items, ∀ v ∈ queue, v.ptr ≠ e.ptr) (hn : n ≤ items.length) :
    clearLoop queue items n = 0 := by
  induction n with
  | zero => rfl
  | succ k ih =>
    have hk : k < items.length := hn
    have hmem : items.getD k default ∈ items := by
      rw [getD_eq_getElem_of_lt items k hk]
      exact List.getElem_mem hk
    have hnone : rangeFind (fun v => sameHandle v (items.getD k default)) queue 0 = none := by
      apply rangeFind_none
      intro v hv
      simpa [sameHandle] using h _ hmem v hv
    rw [clearLoop_missed queue items k hnone]
    exact ih (Nat.le_of_lt hk)

theorem clearLoop_latest (queue items : List event) (i j : Nat)
    (hnd : (queue.map event.ptr).Nodup) (hi : i < queue.length) (hj : j < items.length)
    (hm : (queue[i]).ptr = (items[j]).ptr)
    (hlater : ∀ k (hk : k < items.length), j < k → ∀ v ∈ queue, v.ptr ≠ (items[k]).ptr)
    (n : Nat) (hjn : j < n) (hn : n ≤ items.length) :
    clearLoop queue items n = i := by
  induction n with
  | zero => exact absurd hjn (Nat.not_lt_zero j)
  | succ k ih =>
    have hk : k < items.length := hn
    by_cases hjk : j = k
    · subst hjk
      apply clearLoop_found
      apply rangeFind_handle_at queue _ i hi hnd
      rw [getD_eq_getElem_of_lt items j hj]
      exact hm
    · have hlt : j < k := by omega
      have hnone : rangeFind (fun v => sameHandle v (items.getD k default)) queue 0 = none := by
        apply rangeFind_none
        intro v hv
        rw [getD_eq_getElem_of_lt items k hk]
        simpa [sameHandle] using hlater k hk hlt v hv
      rw [clearLoop_missed queue items k hnone]
      exact ih hlt (Nat.le_of_lt hk)

theorem clear_noop (r : Reporter) (items : Option (List event)) (ackTime : Int)
    (h : ackTime ≤ r.lastAck ∨ r.queue = [] ∨ items = none ∨ items = some []) :
    r.clear items ackTime = r := by
  unfold Reporter.clear
  rw [if_pos]
  rcases h with h | h | h | h
  · left; exact (timeSub_nonpos_iff _ _).mpr h
  · right; left; rw [h]; rfl
  · right; right; left; rw [h]; rfl
  · right; right; right; rw [h]; rfl

theorem clear_lastAck_cases (r : Reporter) (items : Option (List event)) (ackTime : Int) :
    (r.clear items ackTime).lastAck = r.lastAck ∨
      ((r.clear items ackTime).lastAck = ackTime ∧ r.lastAck < ackTime) := by
  by_cases ht : ackTime ≤ r.lastAck
  · left
    rw [clear_noop r items ackTime (Or.inl ht)]
  · rcases clear_cases r items ackTime with h | ⟨n, h⟩
    · left; rw [h]
    · right
      rw [h]
      exact ⟨rfl, by omega⟩

theorem Sys.step_lastAck_le (s : Sys) (h : s.Inv) (op : Op) :
    s.r.lastAck ≤ (s.step op).r.lastAck := by
  cases op with
  | report e => exact le_of_eq (Report_fields s.r s.heap e).2.1.symm
  | events => exact le_refl _
  | ack k now =>
    rcases Sys.step_ack_eq s h k now with heq | ⟨S, _, _, heq⟩
    · rw [heq]
    · rw [heq]
      show s.r.lastAck ≤ (s.r.clear (some S) now).lastAck
      rcases clear_lastAck_cases s.r (some S) now with h1 | ⟨h1, h2⟩
      · rw [h1]
      · rw [h1]; exact le_of_lt h2
  | close => exact le_refl _


/-! ## The claims on `Report`, the watermark and the trim cases -/

/-- C11: with a threshold `T > 0`, `Report` on a queue of length `n` leaves
`n + 1` events when `n < T` and exactly `n` events when `n ≥ T` (one appended,
one evicted), also when `n > T`. -/
theorem Report_evicts_exactly_one (r : Reporter) (p : Nat) (e : ReporterEvent)
    (hT : 0 < r.threshold) :
    ((r.queue.length : Int) < r.threshold →
        (r.Report p e).1.queue.length = r.queue.length + 1) ∧
      (r.threshold ≤ (r.queue.length : Int) →
        (r.Report p e).1.queue.length = r.queue.length) := by
  rcases Report_cases r p e with ⟨h, hc⟩ | ⟨h, hc⟩
  · rw [h]
    have hle : ¬ ((r.queue.length + 1 : Nat) : Int) > r.threshold := fun hgt => hc ⟨hT, hgt⟩
    push_cast at hle
    refine ⟨fun _ => by simp, fun hge => ?_⟩
    omega
  · rw [h]
    have hne : ({ r with queue := r.queue ++
        [⟨p, r.info, e.Typ, e.Time, e.SubType, e.Message, e.Payload⟩] } : Reporter).queue ≠ [] := by
      simp
    have hlen := dropEvent_length _ hne
    simp only [List.length_append, List.length_singleton] at hlen
    have hgt := hc.2
    push_cast at hgt
    refine ⟨fun hlt => ?_, fun _ => ?_⟩
    · omega
    · omega

theorem Report_evicts_exactly_one_witness :
    (0 : Int) < mixedQueue.threshold ∧
      (((mixedQueue.queue.length : Int) < mixedQueue.threshold →
        (mixedQueue.Report 4 evInfo).1.queue.length = mixedQueue.queue.length + 1) ∧
      (mixedQueue.threshold ≤ (mixedQueue.queue.length : Int) →
        (mixedQueue.Report 4 evInfo).1.queue.length = mixedQueue.queue.length)) := by
  have h := Report_evicts_exactly_one mixedQueue 4 evInfo (by decide)
  exact ⟨by decide, h⟩

/-- C12: with threshold 0, `Report` leaves the old queue followed by exactly
the one new event and changes nothing else; nothing is evicted, whatever the
length of the queue. -/
theorem Report_unlimited_appends (r : Reporter) (p : Nat) (e : ReporterEvent)
    (h0 : r.threshold = 0) :
    (r.Report p e).1 =
      { r with queue := r.queue ++
          [⟨p, r.info, e.Typ, e.Time, e.SubType, e.Message, e.Payload⟩] } := by
  rcases Report_cases r p e with ⟨h, _⟩ | ⟨_, hc⟩
  · exact h
  · exfalso
    have := hc.1
    omega

theorem Report_unlimited_appends_witness :
    twinQueue.threshold = 0 ∧
      (twinQueue.Report 4 evError).1 =
        { twinQueue with queue := twinQueue.queue ++ [stored 4 EventTypeError] } := by
  have h := Report_unlimited_appends twinQueue 4 evError (by decide)
  exact ⟨by decide, h⟩

/-- C13: `clear` leaves the reporter (queue and `lastAck`) as it is whenever
the ack time is not after `lastAck`, or the queue is empty, or `items` is nil or
empty. -/
theorem clear_absorbs_stale_or_empty (r : Reporter) (items : Option (List event))
    (ackTime : Int)
    (h : ackTime ≤ r.lastAck ∨ r.queue = [] ∨ items = none ∨ items = some []) :
    r.clear items ackTime = r ∧ (r.clear items ackTime).queue = r.queue ∧
      (r.clear items ackTime).lastAck = r.lastAck := by
  rw [clear_noop r items ackTime h]
  exact ⟨rfl, rfl, rfl⟩

theorem clear_absorbs_stale_or_empty_witness :
    ((0 : Int) ≤ twinQueue.lastAck ∨ twinQueue.queue = [] ∨
        some [stored 1 "INFO"] = none ∨ some [stored 1 "INFO"] = some []) ∧
      (twinQueue.clear (some [stored 1 "INFO"]) 0 = twinQueue ∧
        (twinQueue.clear (some [stored 1 "INFO"]) 0).queue = twinQueue.queue ∧
        (twinQueue.clear (some [stored 1 "INFO"]) 0).lastAck = twinQueue.lastAck) := by
  have h := clear_absorbs_stale_or_empty twinQueue (some [stored 1 "INFO"]) 0
    (Or.inl (by decide))
  exact ⟨Or.inl (by decide), h⟩

/-- C14: `Report`, `Events` and `Close` leave `lastAck` as it is; `clear` either
leaves it as it is or sets it to its ack time, which is then strictly greater;
so `lastAck` never decreases, in one call or along a history. -/
theorem lastAck_monotonic :
    (∀ (r : Reporter) (p : Nat) (e : ReporterEvent), (r.Report p e).1.lastAck = r.lastAck) ∧
    (∀ r : Reporter, r.Events.2.2.lastAck = r.lastAck) ∧
    (∀ r : Reporter, r.Close.1.lastAck = r.lastAck) ∧
    (∀ (r : Reporter) (items : Option (List event)) (ackTime : Int),
      ((r.clear items ackTime).lastAck = r.lastAck ∨
        ((r.clear items ackTime).lastAck = ackTime ∧ r.lastAck < ackTime)) ∧
      r.lastAck ≤ (r.clear items ackTime).lastAck) ∧
    (∀ (agentInfo : String) (c : Config) (ops : List Op) (op : Op),
      ((Sys.init agentInfo c).run ops).r.lastAck ≤
        (((Sys.init agentInfo c).run ops).step op).r.lastAck) := by
  refine ⟨fun r p e => (Report_fields r p e).2.1, fun _ => rfl, fun _ => rfl, ?_, ?_⟩
  · intro r items ackTime
    refine ⟨clear_lastAck_cases r items ackTime, ?_⟩
    rcases clear_lastAck_cases r items ackTime with h | ⟨h, hlt⟩
    · rw [h]
    · rw [h]; exact le_of_lt hlt
  · intro agentInfo c ops op
    exact Sys.step_lastAck_le _ (Sys.run_inv agentInfo c ops) op


/-- C15: from the queue `[e2, e4]` (`e2` of the error type, `e4` not, at two
addresses), `Events` returns `[e2, e4]`; after a `Report` of `e5` at an address
other than that of `e4` and an invocation of the returned ack after the watermark, the queue is
exactly the stored `e5`, whatever the threshold and the type of `e5`; with a
threshold that triggers no eviction the queue before the ack is `[e2, e4, e5]`,
of which the ack drops the first two. -/
theorem snapshot_ack_race (r : Reporter) (e2 e4 : event) (p : Nat) (e5 : ReporterEvent)
    (now : Int) (hq : r.queue = [e2, e4])
    (h2 : e2.getType = EventTypeError) (h4 : e4.getType ≠ EventTypeError)
    (h24 : e2.ptr ≠ e4.ptr) (hp4 : p ≠ e4.ptr)
    (ht : r.lastAck < now) :
    r.Events.1 = [e2, e4] ∧
      (r.Events.2.1 now (r.Events.2.2.Report p e5).1).queue =
        [⟨p, r.info, e5.Typ, e5.Time, e5.SubType, e5.Message, e5.Payload⟩] ∧
      (r.threshold ≤ 0 ∨ 3 ≤ r.threshold →
        (r.Events.2.2.Report p e5).1.queue =
          [e2, e4, ⟨p, r.info, e5.Typ, e5.Time, e5.SubType, e5.Message, e5.Payload⟩] ∧
        (r.Events.2.1 now (r.Events.2.2.Report p e5).1).queue =
          (r.Events.2.2.Report p e5).1.queue.drop 2) := by
  have hcp : r.queueCopy = [e2, e4] := by rw [queueCopy_eq, hq]
  have hne : ([e2, e4] : List event) ≠ [] := by simp
  show r.queueCopy = [e2, e4] ∧
    ((r.Report p e5).1.clear (some r.queueCopy) now).queue = _ ∧
    (_ → (r.Report p e5).1.queue = _ ∧
      ((r.Report p e5).1.clear (some r.queueCopy) now).queue = _)
  rw [hcp]
  have hlast : (r.Report p e5).1.lastAck < now := by
    rw [(Report_fields r p e5).2.1]; exact ht
  rcases Report_cases r p e5 with ⟨h, hc⟩ | ⟨h, hc⟩
  · have hrq : (r.Report p e5).1.queue =
        [e2, e4, ⟨p, r.info, e5.Typ, e5.Time, e5.SubType, e5.Message, e5.Payload⟩] := by
      rw [h, hq]; rfl
    have hrne : (r.Report p e5).1.queue ≠ [] := by rw [hrq]; simp
    have hclear : ((r.Report p e5).1.clear (some [e2, e4]) now).queue =
        [⟨p, r.info, e5.Typ, e5.Time, e5.SubType, e5.Message, e5.Payload⟩] := by
      rw [clear_applied _ [e2, e4] now hlast hrne hne, hrq]
      simp [clearLoop, rangeFind, sameHandle, h24]
    refine ⟨rfl, hclear, fun _ => ⟨hrq, ?_⟩⟩
    show ((r.Report p e5).1.clear (some [e2, e4]) now).queue =
      List.drop 2 (r.Report p e5).1.queue
    rw [hclear, hrq]
    rfl
  · have hsplit : ({ r with queue := r.queue ++
          [⟨p, r.info, e5.Typ, e5.Time, e5.SubType, e5.Message, e5.Payload⟩] } : Reporter).queue =
        [e2] ++ e4 ::
          [⟨p, r.info, e5.Typ, e5.Time, e5.SubType, e5.Message, e5.Payload⟩] := by
      rw [hq]; rfl
    have hdrop := dropEvent_split _ [e2] _ e4 hsplit
      (by intro x hx; rw [List.mem_singleton.mp hx]; exact h2) h4
    have hrq : (r.Report p e5).1.queue =
        [e2, ⟨p, r.info, e5.Typ, e5.Time, e5.SubType, e5.Message, e5.Payload⟩] := by
      rw [h, hdrop]; rfl
    have hrne : (r.Report p e5).1.queue ≠ [] := by rw [hrq]; simp
    have hclear : ((r.Report p e5).1.clear (some [e2, e4]) now).queue =
        [⟨p, r.info, e5.Typ, e5.Time, e5.SubType, e5.Message, e5.Payload⟩] := by
      rw [clear_applied _ [e2, e4] now hlast hrne hne, hrq]
      simp [clearLoop, rangeFind, sameHandle, h24, hp4]
    refine ⟨rfl, hclear, fun hthr => ?_⟩
    exfalso
    have hlen : ((r.queue.length + 1 : Nat) : Int) = 3 := by rw [hq]; rfl
    have h1 := hc.1
    have h3 := hc.2
    rw [hlen] at h3
    omega

theorem snapshot_ack_race_witness :
    raceQueue.lastAck < 5 ∧
      (raceQueue.Events.1 = [stored 2 EventTypeError, stored 4 "INFO"] ∧
      (raceQueue.Events.2.1 5 (raceQueue.Events.2.2.Report 5 evInfo).1).queue =
        [stored 5 "INFO"] ∧
      (raceQueue.threshold ≤ 0 ∨ 3 ≤ raceQueue.threshold →
        (raceQueue.Events.2.2.Report 5 evInfo).1.queue =
          [stored 2 EventTypeError, stored 4 "INFO", stored 5 "INFO"] ∧
        (raceQueue.Events.2.1 5 (raceQueue.Events.2.2.Report 5 evInfo).1).queue =
          (raceQueue.Events.2.2.Report 5 evInfo).1.queue.drop 2)) := by
  have h := snapshot_ack_race raceQueue (stored 2 EventTypeError) (stored 4 "INFO") 5 evInfo 5
    rfl (by decide) (by decide) (by decide) (by decide) (by decide)
  exact ⟨by decide, h⟩

/-- C16: `Report` returns a nil error whatever the state, the threshold and the
event, also when it evicts; `Close` returns a nil error and the reporter
unchanged, queue and `lastAck` included. -/
theorem Report_and_Close_never_fail :
    (∀ (r : Reporter) (p : Nat) (e : ReporterEvent), (r.Report p e).2 = none) ∧
    (∀ r : Reporter, r.Close.2 = none ∧ r.Close.1 = r ∧
      r.Close.1.queue = r.queue ∧ r.Close.1.lastAck = r.lastAck) ∧
    ((errorQueue.Report 3 evInfo).2 = none ∧ (errorQueue.Report 3 evInfo).1 = errorQueue) :=
  ⟨fun _ _ _ => rfl, fun _ => ⟨rfl, rfl, rfl, rfl⟩, by decide⟩

/-- C17 (the claim fails): for a snapshot taken at time 5, the ack invoked at
time 9 stores 9 in `lastAck`, where an ack capturing the time of the snapshot
would store 5. -/
theorem ack_stores_invocation_time_not_snapshot_time :
    (twinQueue.Events.2.1 9 twinQueue).lastAck = 9 ∧
      (specAckFn twinQueue.Events.1 5 9 twinQueue).lastAck = 5 ∧
      twinQueue.Events.2.1 9 twinQueue ≠ specAckFn twinQueue.Events.1 5 9 twinQueue := by
  decide

/-- C17 (amended): the ack function returned by `Events` passes to `clear` the
clock reading `t1` of the moment it is invoked: on non-empty queue and snapshot
it is applied, storing `t1` in `lastAck`, exactly when `t1` is after the
watermark, and is absorbed when `t1` is not. -/
theorem ack_uses_invocation_time (r r1 : Reporter) (t1 : Int)
    (hq : r.queue ≠ []) (hq1 : r1.queue ≠ []) :
    r.Events.2.1 t1 r1 = r1.clear (some r.queue) t1 ∧
      (r1.lastAck < t1 → (r.Events.2.1 t1 r1).lastAck = t1) ∧
      (t1 ≤ r1.lastAck → r.Events.2.1 t1 r1 = r1) := by
  have hfn : r.Events.2.1 t1 r1 = r1.clear (some r.queue) t1 := by
    show r1.clear (some r.queueCopy) t1 = _
    rw [queueCopy_eq]
  rw [hfn]
  refine ⟨rfl, fun ht => ?_, fun ht => clear_noop r1 _ t1 (Or.inl ht)⟩
  rw [clear_applied r1 r.queue t1 ht hq1 hq]

theorem ack_uses_invocation_time_witness :
    twinQueue.queue ≠ [] ∧
      (twinQueue.Events.2.1 9 twinQueue = twinQueue.clear (some twinQueue.queue) 9 ∧
      (twinQueue.lastAck < 9 → (twinQueue.Events.2.1 9 twinQueue).lastAck = 9) ∧
      ((9 : Int) ≤ twinQueue.lastAck → twinQueue.Events.2.1 9 twinQueue = twinQueue)) := by
  have h := ack_uses_invocation_time twinQueue twinQueue 9 (by decide) (by decide)
  exact ⟨by decide, h⟩

/-- C18: when no element of a non-empty snapshot has the handle of any element
of the non-empty queue, an ack after the watermark removes exactly the oldest
queue element (the queue becomes its tail) and sets `lastAck` to the ack
time. -/
theorem clear_no_match_drops_oldest (r : Reporter) (items : List event) (ackTime : Int)
    (hq : r.queue ≠ []) (hi : items ≠ [])
    (hno : ∀ e ∈ items, ∀ v ∈ r.queue, v.ptr ≠ e.ptr) (ht : r.lastAck < ackTime) :
    (r.clear (some items) ackTime).queue = r.queue.tail ∧
      (r.clear (some items) ackTime).lastAck = ackTime := by
  rw [clear_applied r items ackTime ht hq hi,
    clearLoop_all_missed r.queue items items.length hno (le_refl _)]
  exact ⟨by simp, rfl⟩

theorem clear_no_match_drops_oldest_witness :
    twinQueue.lastAck < 5 ∧
      ((twinQueue.clear (some [stored 7 "INFO"]) 5).queue = twinQueue.queue.tail ∧
      (twinQueue.clear (some [stored 7 "INFO"]) 5).lastAck = 5) := by
  have h := clear_no_match_drops_oldest twinQueue [stored 7 "INFO"] 5
    (by decide) (by decide) (by decide) (by decide)
  exact ⟨by decide, h⟩

/-- C19: on a queue with pairwise distinct handles, if the snapshot element at
index `j` has the handle of the queue element at index `i` and no snapshot
element after index `j` has the handle of any queue element, an ack after the
watermark leaves exactly the queue elements after index `i` and sets `lastAck`
to the ack time. -/
theorem clear_trims_through_latest_survivor (r : Reporter) (items : List event)
    (i j : Nat) (ackTime : Int) (hnd : (r.queue.map event.ptr).Nodup)
    (hi : i < r.queue.length) (hj : j < items.length)
    (hm : (r.queue[i]).ptr = (items[j]).ptr)
    (hlater : ∀ k (hk : k < items.length), j < k → ∀ v ∈ r.queue, v.ptr ≠ (items[k]).ptr)
    (ht : r.lastAck < ackTime) :
    (r.clear (some items) ackTime).queue = r.queue.drop (i + 1) ∧
      (r.clear (some items) ackTime).lastAck = ackTime := by
  have hq : r.queue ≠ [] := by
    intro h; rw [h] at hi; exact Nat.not_lt_zero _ hi
  have hne : items ≠ [] := by
    intro h; rw [h] at hj; exact Nat.not_lt_zero _ hj
  rw [clear_applied r items ackTime ht hq hne,
    clearLoop_latest r.queue items i j hnd hi hj hm hlater items.length hj (le_refl _)]
  exact ⟨rfl, rfl⟩

theorem clear_trims_through_latest_survivor_witness :
    twinQueue.lastAck < 5 ∧
      ((twinQueue.clear (some [stored 1 "INFO", stored 2 "INFO", stored 9 "INFO"]) 5).queue =
        [stored 3 "INFO"] ∧
      (twinQueue.clear (some [stored 1 "INFO", stored 2 "INFO", stored 9 "INFO"]) 5).lastAck
        = 5) := by
  have h := clear_trims_through_latest_survivor twinQueue
    [stored 1 "INFO", stored 2 "INFO", stored 9 "INFO"] 1 1 5
    (by decide) (by decide) (by decide) (by decide) (by decide) (by decide)
  exact ⟨by decide, h⟩

/-- C20: with a threshold `T > 0`, on a queue of at least `T` events, all of the
error type, `Report` of an event of another type returns the reporter it was
given: the new event is the one evicted and no error event is lost. -/
theorem Report_non_error_into_full_error_queue (r : Reporter) (p : Nat) (e : ReporterEvent)
    (hT : 0 < r.threshold) (hlen : r.threshold ≤ (r.queue.length : Int))
    (hall : ∀ x ∈ r.queue, x.getType = EventTypeError) (he : e.Typ ≠ EventTypeError) :
    (r.Report p e).1 = r ∧ (r.Report p e).1.queue = r.queue := by
  have hrep : (r.Report p e).1 = r := by
    rcases Report_cases r p e with ⟨_, hc⟩ | ⟨h, _⟩
    · exfalso
      apply hc
      refine ⟨hT, ?_⟩
      push_cast
      omega
    · rw [h, dropEvent_split _ r.queue [] ⟨p, r.info, e.Typ, e.Time, e.SubType, e.Message,
        e.Payload⟩ rfl hall he]
      simp
  rw [hrep]
  exact ⟨rfl, rfl⟩

theorem Report_non_error_into_full_error_queue_witness :
    (0 : Int) < errorQueue.threshold ∧
      ((errorQueue.Report 3 evInfo).1 = errorQueue ∧
      (errorQueue.Report 3 evInfo).1.queue = errorQueue.queue) := by
  have h := Report_non_error_into_full_error_queue errorQueue 3 evInfo
    (by decide) (by decide) (by decide) (by decide)
  exact ⟨by decide, h⟩


end Fleet
